import Mathlib

/-!
Verification of a mesh-analysis DC circuit solver (src/main.py).

The program builds an N by N resistance matrix and an N-vector of mesh
source voltages, solves `R * I = V` for the mesh currents, maps the mesh
currents back onto each resistor (`calcular_potencia`) and sums the
dissipated power.  Real values of the program are modelled as `ℚ`
(exact arithmetic); mesh indices stored in the resistor registry are
modelled as `ℤ`, because the source stores plain Python integers that may
be out of range, and indexing a sequence of length `n` in Python succeeds
for every index in `[-n, n)`, wrapping negative indices around.
-/

/-- Topology tag of a resistor, as stored in the `resistencias` dictionary
of the source: key `malla` marks a resistor exclusive to one mesh, key
`mallas` marks a resistor shared between two meshes. -/
inductive MallaTag where
  | malla (i : ℤ)
  | mallas (i j : ℤ)
deriving DecidableEq, Repr

/-- One entry of the resistor registry: the dictionary value
`{valor: r, malla: i}` or `{valor: r, mallas: (i, j)}` of the source. -/
structure ResistorInfo where
  valor : ℚ
  tag : MallaTag
deriving DecidableEq, Repr

/-- Per-resistor output record of `calcular_potencia`: either the numeric
record `{R, Corriente (A), Potencia (W)}` or the error marker written by
the `except` branch (which keeps the resistance and stores a diagnostic
string in place of the numbers). -/
inductive ComponentResult where
  | ok (R corriente potencia : ℚ)
  | err (R : ℚ) (msg : String)
deriving DecidableEq, Repr

/-- `true` on numeric records, `false` on error markers: the
`isinstance(.., (int, float))` test of the source on the power field. -/
def ComponentResult.isNumeric : ComponentResult → Bool
  | .ok _ _ _ => true
  | .err _ _ => false

/-- The `Potencia (W)` field of a numeric record (unused on error markers,
which the aggregation filters out first). -/
def ComponentResult.potencia : ComponentResult → ℚ
  | .ok _ _ p => p
  | .err _ _ => 0

/-- Python/numpy indexing of a length-`n` sequence by a possibly negative
integer: index `i` with `0 ≤ i < n` reads position `i`, index `i` with
`-n ≤ i < 0` wraps around and reads position `n + i`, and anything else
raises `IndexError` (modelled as `none`). -/
def pyGet (xs : List ℚ) (i : ℤ) : Option ℚ :=
  if 0 ≤ i ∧ i < (xs.length : ℤ) then xs.get? i.toNat
  else if -(xs.length : ℤ) ≤ i ∧ i < 0 then xs.get? ((xs.length : ℤ) + i).toNat
  else none

/-- Body of the per-resistor loop of `calcular_potencia`: reads the mesh
current (exclusive resistor) or the difference of two mesh currents
(shared resistor), and returns the numeric record, or the error marker
when an index access raises. -/
def resolveOne (corrientes : List ℚ) (info : ResistorInfo) : ComponentResult :=
  match info.tag with
  | .malla i =>
    match pyGet corrientes i with
    | some c => .ok info.valor |c| (c ^ 2 * info.valor)
    | none => .err info.valor "Error: index out of bounds"
  | .mallas i j =>
    match pyGet corrientes i, pyGet corrientes j with
    | some ci, some cj => .ok info.valor |ci - cj| ((ci - cj) ^ 2 * info.valor)
    | _, _ => .err info.valor "Error: index out of bounds"

/-- `calcular_potencia(resistencias, corrientes_malla)` of the source: one
output entry per registry entry, in registry order (the dictionary of the
source preserves insertion order). -/
def calcular_potencia (resistencias : List (String × ResistorInfo))
    (corrientes_malla : List ℚ) : List (String × ComponentResult) :=
  resistencias.map fun p => (p.1, resolveOne corrientes_malla p.2)

/-- `potencia_total` of the source: sum of the `Potencia (W)` fields over
the entries whose power is numeric. -/
def potencia_total (resultados : List (String × ComponentResult)) : ℚ :=
  ((resultados.filter fun nd => nd.2.isNumeric).map fun nd => nd.2.potencia).sum

/-- Single matrix-entry assignment `M[i, j] = x`. -/
def mset {n : ℕ} (M : Matrix (Fin n) (Fin n) ℚ) (i j : Fin n) (x : ℚ) :
    Matrix (Fin n) (Fin n) ℚ :=
  Matrix.of fun a b => if a = i ∧ b = j then x else M a b

/-- State threaded through the two input loops of `main`: the resistance
matrix `matriz_R`, the source vector `vector_V` and the resistor registry
`resistencias`. -/
structure BuildState (n : ℕ) where
  R : Matrix (Fin n) (Fin n) ℚ
  V : Fin n → ℚ
  resistencias : List (String × ResistorInfo)

/-- One iteration of the first input loop of `main` for mesh `i`: stores
the mesh source in `vector_V[i]`, assigns the sum of the exclusive
resistor values to `matriz_R[i, i]`, and registers every exclusive
resistor under the name `R{i+1}_p{k+1}` with tag `malla i`. -/
def exclStep {n : ℕ} (sources : Fin n → ℚ) (propias : Fin n → List ℚ)
    (st : BuildState n) (i : Fin n) : BuildState n :=
  { R := mset st.R i i (propias i).sum,
    V := Function.update st.V i (sources i),
    resistencias := st.resistencias ++ ((propias i).enum.map fun kr =>
      ("R" ++ toString (i.1 + 1) ++ "_p" ++ toString (kr.1 + 1),
       ⟨kr.2, .malla (i.1 : ℤ)⟩)) }

/-- One iteration of the second input loop of `main` for the mesh pair
`p = (i, j)`: when the shared value `r` is positive it adds `r` to both
diagonal entries, assigns `-r` to both off-diagonal entries, and registers
the resistor under the name `R_c{i+1}-{j+1}` with tag `mallas (i, j)`;
otherwise it leaves the state untouched. -/
def sharedStep {n : ℕ} (shared : Fin n → Fin n → ℚ)
    (st : BuildState n) (p : Fin n × Fin n) : BuildState n :=
  let r := shared p.1 p.2
  if 0 < r then
    let M1 := mset st.R p.1 p.1 (st.R p.1 p.1 + r)
    let M2 := mset M1 p.2 p.2 (M1 p.2 p.2 + r)
    let M3 := mset M2 p.1 p.2 (-r)
    let M4 := mset M3 p.2 p.1 (-r)
    { R := M4,
      V := st.V,
      resistencias := st.resistencias ++
        [("R_c" ++ toString (p.1.1 + 1) ++ "-" ++ toString (p.2.1 + 1),
          ⟨r, .mallas (p.1.1 : ℤ) (p.2.1 : ℤ)⟩)] }
  else st

/-- Iteration order of the second input loop of `main`: all pairs `(i, j)`
with `i < j`, outer index first. -/
def pairList (n : ℕ) : List (Fin n × Fin n) :=
  (List.finRange n).flatMap fun i =>
    (((List.finRange n).filter fun j => decide (i < j)).map fun j => (i, j))

/-- The whole input phase of `main`: zero matrix and vector, then the
per-mesh loop (sources and exclusive resistors), then the shared-resistor
loop over all pairs `i < j`. -/
def build (n : ℕ) (sources : Fin n → ℚ) (propias : Fin n → List ℚ)
    (shared : Fin n → Fin n → ℚ) : BuildState n :=
  let st0 : BuildState n := ⟨Matrix.of fun _ _ => 0, fun _ => 0, []⟩
  let st1 := (List.finRange n).foldl (exclStep sources propias) st0
  (pairList n).foldl (sharedStep shared) st1

/-- Modelled from the spec: `np.linalg.solve(matriz_R, vector_V)` is not
part of this repository; per the spec of the linear solver it performs a
direct dense solve that fails (`SingularSystemError`, numpy
`LinAlgError`) exactly on a singular matrix and otherwise returns the
solution of `R * I = V`, written here by Cramer's rule over exact
rationals. -/
def solveSystem {n : ℕ} (M : Matrix (Fin n) (Fin n) ℚ) (v : Fin n → ℚ) :
    Except String (Fin n → ℚ) :=
  if M.det = 0 then .error "Sistema Indeterminado: la matriz R es singular"
  else .ok fun i => Matrix.cramer M v i / M.det

/-- The positive part used by the shared-resistor loop: a shared value
contributes only when it is strictly positive. -/
def posShare (x : ℚ) : ℚ := if 0 < x then x else 0

/-- The shared value between two distinct meshes, looked up in the order
the input loop reads it (smaller index first). -/
def sval {n : ℕ} (shared : Fin n → Fin n → ℚ) (a b : Fin n) : ℚ :=
  if a < b then shared a b else shared b a

/-- The topology indices are in range in the ordinary sense of the spec:
non-negative and below the mesh count. -/
def tagInRange (t : MallaTag) (n : ℕ) : Prop :=
  match t with
  | .malla i => 0 ≤ i ∧ i < (n : ℤ)
  | .mallas i j => (0 ≤ i ∧ i < (n : ℤ)) ∧ (0 ≤ j ∧ j < (n : ℤ))

lemma pyGet_nat (xs : List ℚ) (i : ℕ) (h : i < xs.length) :
    pyGet xs (i : ℤ) = some (xs.get ⟨i, h⟩) := by
  have h1 : (0 : ℤ) ≤ (i : ℤ) ∧ (i : ℤ) < (xs.length : ℤ) :=
    ⟨Int.ofNat_nonneg i, by exact_mod_cast h⟩
  simp only [pyGet, if_pos h1, Int.toNat_ofNat]
  exact List.get?_eq_get h

lemma pyGet_none (xs : List ℚ) (i : ℤ)
    (h : (xs.length : ℤ) ≤ i ∨ i < -(xs.length : ℤ)) : pyGet xs i = none := by
  have h1 : ¬(0 ≤ i ∧ i < (xs.length : ℤ)) := by omega
  have h2 : ¬(-(xs.length : ℤ) ≤ i ∧ i < 0) := by omega
  simp [pyGet, h1, h2]

lemma pyGet_int_inRange (xs : List ℚ) (i : ℤ) (h : 0 ≤ i ∧ i < (xs.length : ℤ)) :
    ∃ c, pyGet xs i = some c := by
  have hlt : i.toNat < xs.length := by omega
  have hcast : (i.toNat : ℤ) = i := Int.toNat_of_nonneg h.1
  refine ⟨xs.get ⟨i.toNat, hlt⟩, ?_⟩
  calc pyGet xs i = pyGet xs (i.toNat : ℤ) := by rw [hcast]
    _ = some (xs.get ⟨i.toNat, hlt⟩) := pyGet_nat xs i.toNat hlt

lemma resolveOne_isNumeric_of_inRange (corrientes : List ℚ) (info : ResistorInfo)
    (h : tagInRange info.tag corrientes.length) :
    (resolveOne corrientes info).isNumeric = true := by
  obtain ⟨r, t⟩ := info
  cases t with
  | malla i =>
    obtain ⟨c, hc⟩ := pyGet_int_inRange corrientes i h
    simp [resolveOne, hc, ComponentResult.isNumeric]
  | mallas i j =>
    obtain ⟨ci, hci⟩ := pyGet_int_inRange corrientes i h.1
    obtain ⟨cj, hcj⟩ := pyGet_int_inRange corrientes j h.2
    simp [resolveOne, hci, hcj, ComponentResult.isNumeric]

/-- The numeric power of a result, `none` on an error marker. -/
def okPower : ComponentResult → Option ℚ
  | .ok _ _ p => some p
  | .err _ _ => none

lemma potencia_total_eq_filterMap (l : List (String × ComponentResult)) :
    potencia_total l = (l.filterMap fun nd => okPower nd.2).sum := by
  induction l with
  | nil => rfl
  | cons hd tl ih =>
    obtain ⟨name, res⟩ := hd
    cases res <;>
      simp_all [potencia_total, ComponentResult.isNumeric, okPower,
        ComponentResult.potencia, List.filter_cons, List.filterMap_cons]

lemma potencia_total_append_err (l1 l2 : List (String × ComponentResult))
    (name : String) (R : ℚ) (msg : String) :
    potencia_total (l1 ++ (name, .err R msg) :: l2) = potencia_total (l1 ++ l2) := by
  simp [potencia_total, List.filter_append, List.filter_cons, ComponentResult.isNumeric]

/-- C3: for a resistor with in-range topology indices the resolver reports
the mesh current (exclusive) or the difference of the two mesh currents
(shared) in absolute value, the power is the square of the raw current
times the resistance, and with a non-negative resistance that power is
non-negative whatever the sign of the raw current. -/
theorem resolver_in_range (corrientes : List ℚ) (r : ℚ) (i j : ℕ)
    (hi : i < corrientes.length) (hj : j < corrientes.length) :
    resolveOne corrientes ⟨r, .malla (i : ℤ)⟩ =
      .ok r |corrientes.get ⟨i, hi⟩| (corrientes.get ⟨i, hi⟩ ^ 2 * r) ∧
    resolveOne corrientes ⟨r, .mallas (i : ℤ) (j : ℤ)⟩ =
      .ok r |corrientes.get ⟨i, hi⟩ - corrientes.get ⟨j, hj⟩|
        ((corrientes.get ⟨i, hi⟩ - corrientes.get ⟨j, hj⟩) ^ 2 * r) ∧
    (0 ≤ r → 0 ≤ corrientes.get ⟨i, hi⟩ ^ 2 * r ∧
      0 ≤ (corrientes.get ⟨i, hi⟩ - corrientes.get ⟨j, hj⟩) ^ 2 * r) := by
  refine ⟨?_, ?_, fun hr => ⟨mul_nonneg (sq_nonneg _) hr, mul_nonneg (sq_nonneg _) hr⟩⟩
  · simp [resolveOne, pyGet_nat corrientes i hi]
  · simp [resolveOne, pyGet_nat corrientes i hi, pyGet_nat corrientes j hj]

/-- Witness for C3 at `corrientes = [3, -1]`, `r = 2`, `i = 0`, `j = 1`. -/
theorem resolver_in_range_witness :
    resolveOne [3, -1] ⟨2, .malla ((0 : ℕ) : ℤ)⟩ = .ok 2 3 18 ∧
    resolveOne [3, -1] ⟨2, .mallas ((0 : ℕ) : ℤ) ((1 : ℕ) : ℤ)⟩ = .ok 2 4 32 ∧
    (0 : ℚ) ≤ 18 ∧ (0 : ℚ) ≤ 32 := by
  obtain ⟨h1, h2, h3⟩ :=
    resolver_in_range [3, -1] 2 0 1 (by norm_num) (by norm_num)
  obtain ⟨h4, h5⟩ := h3 (by norm_num)
  have g0 : ([3, -1] : List ℚ).get ⟨0, by norm_num⟩ = 3 := rfl
  have g1 : ([3, -1] : List ℚ).get ⟨1, by norm_num⟩ = -1 := rfl
  rw [g0] at h1 h4
  rw [g0, g1] at h2 h5
  refine ⟨?_, ?_, ?_, ?_⟩
  · rw [h1]
    simp only [ComponentResult.ok.injEq]
    exact ⟨trivial, abs_of_pos (by norm_num), by norm_num⟩
  · rw [h2]
    simp only [ComponentResult.ok.injEq]
    refine ⟨trivial, ?_, by norm_num⟩
    rw [show (3 : ℚ) - -1 = 4 by norm_num]
    exact abs_of_pos (by norm_num)
  · calc (0 : ℚ) ≤ (3 : ℚ) ^ 2 * 2 := h4
      _ = 18 := by norm_num
  · calc (0 : ℚ) ≤ ((3 : ℚ) - -1) ^ 2 * 2 := h5
      _ = 32 := by norm_num

/-- C10: swapping the two mesh indices of a shared resistor does not
change the reported current or power. -/
theorem mallas_swap_same_result (corrientes : List ℚ) (r : ℚ) (i j : ℕ)
    (hij : i ≠ j) (hi : i < corrientes.length) (hj : j < corrientes.length) :
    ∃ c p, resolveOne corrientes ⟨r, .mallas (i : ℤ) (j : ℤ)⟩ = .ok r c p ∧
      resolveOne corrientes ⟨r, .mallas (j : ℤ) (i : ℤ)⟩ = .ok r c p := by
  refine ⟨|corrientes.get ⟨i, hi⟩ - corrientes.get ⟨j, hj⟩|,
    (corrientes.get ⟨i, hi⟩ - corrientes.get ⟨j, hj⟩) ^ 2 * r, ?_, ?_⟩
  · simp [resolveOne, pyGet_nat corrientes i hi, pyGet_nat corrientes j hj]
  · simp only [resolveOne, pyGet_nat corrientes i hi, pyGet_nat corrientes j hj]
    rw [abs_sub_comm]
    have hsq : (corrientes.get ⟨j, hj⟩ - corrientes.get ⟨i, hi⟩) ^ 2 =
        (corrientes.get ⟨i, hi⟩ - corrientes.get ⟨j, hj⟩) ^ 2 := by ring
    rw [hsq]

/-- Witness for C10 at `corrientes = [4, 1]`, `r = 3`, `i = 0`, `j = 1`. -/
theorem mallas_swap_same_result_witness :
    ∃ c p, resolveOne [4, 1] ⟨3, .mallas ((0 : ℕ) : ℤ) ((1 : ℕ) : ℤ)⟩ = .ok 3 c p ∧
      resolveOne [4, 1] ⟨3, .mallas ((1 : ℕ) : ℤ) ((0 : ℕ) : ℤ)⟩ = .ok 3 c p :=
  mallas_swap_same_result [4, 1] 3 0 1 (by decide) (by decide) (by decide)

/-- C5 counterexample: a resistor whose topology index is negative but at
least `-N` does NOT get an error marker: Python indexing wraps it around,
and the resolver returns a numeric record (here index `-1` on a single
mesh reads mesh 0). -/
theorem negative_index_is_numeric :
    calcular_potencia [("Rx", ⟨2, .malla (-1)⟩)] [5] = [("Rx", .ok 2 5 50)] ∧
    ((calcular_potencia [("Rx", ⟨2, .malla (-1)⟩)] [5]).map
      fun nd => nd.2.isNumeric) = [true] := by
  have hget : pyGet [5] (-1) = some 5 := by decide
  have h1 : resolveOne [5] ⟨2, .malla (-1)⟩ = .ok 2 5 50 := by
    rw [resolveOne]
    simp only [hget]
    simp only [ComponentResult.ok.injEq]
    exact ⟨trivial, abs_of_pos (by norm_num), by norm_num⟩
  constructor
  · simp [calcular_potencia, h1]
  · simp [calcular_potencia, h1, ComponentResult.isNumeric]

/-- C5 amended: the resolver writes an error marker exactly for indices
outside the Python-valid range, i.e. `i ≥ N` or `i < -N`; negative indices
in `[-N, -1]` wrap around and give a numeric record instead. -/
theorem resolver_err_out_of_pyrange (corrientes : List ℚ) (r : ℚ) (i : ℤ)
    (h : (corrientes.length : ℤ) ≤ i ∨ i < -(corrientes.length : ℤ)) :
    resolveOne corrientes ⟨r, .malla i⟩ = .err r "Error: index out of bounds" ∧
    ∀ j : ℤ,
      resolveOne corrientes ⟨r, .mallas i j⟩ = .err r "Error: index out of bounds" ∧
      resolveOne corrientes ⟨r, .mallas j i⟩ = .err r "Error: index out of bounds" := by
  have hn := pyGet_none corrientes i h
  refine ⟨by simp [resolveOne, hn], fun j => ⟨by simp [resolveOne, hn], ?_⟩⟩
  cases hj : pyGet corrientes j <;> simp [resolveOne, hn, hj]

/-- Witness for the amended C5 at one mesh current and index `5`. -/
theorem resolver_err_out_of_pyrange_witness :
    resolveOne [1] ⟨2, .malla 5⟩ = .err 2 "Error: index out of bounds" ∧
    resolveOne [1] ⟨2, .mallas 5 0⟩ = .err 2 "Error: index out of bounds" := by
  have h := resolver_err_out_of_pyrange [1] 2 5 (by norm_num)
  exact ⟨h.1, (h.2 0).1⟩

/-- C6: the resolver output has one entry per registered resistor, under
the resistor's own name and computed from that resistor alone, and every
resistor whose indices are in range gets a numeric record — whatever error
markers other entries of the registry produce. -/
theorem resolver_partial_failure (resistencias : List (String × ResistorInfo))
    (corrientes : List ℚ) :
    ((calcular_potencia resistencias corrientes).map Prod.fst =
      resistencias.map Prod.fst) ∧
    ∀ k : ℕ, ∀ p : String × ResistorInfo, resistencias.get? k = some p →
      (calcular_potencia resistencias corrientes).get? k =
        some (p.1, resolveOne corrientes p.2) ∧
      (tagInRange p.2.tag corrientes.length →
        (resolveOne corrientes p.2).isNumeric = true) := by
  refine ⟨?_, fun k p hk => ⟨?_, fun hr => resolveOne_isNumeric_of_inRange _ _ hr⟩⟩
  · simp [calcular_potencia]
  · have hk2 : resistencias[k]? = some p := by
      rw [← List.get?_eq_getElem?]; exact hk
    simp [calcular_potencia, List.getElem?_map, hk2]

/-- Witness for C6: spec scenario 3 with three meshes, a bad shared
resistor referencing mesh 5 and a good resistor alongside it. -/
theorem resolver_partial_failure_witness :
    (calcular_potencia
        [("R1", ⟨2, .malla 0⟩), ("Rbad", ⟨1, .mallas 0 5⟩), ("R2", ⟨3, .mallas 0 1⟩)]
        [1, 2, 3]).get? 2 =
      some ("R2", resolveOne [1, 2, 3] ⟨3, .mallas 0 1⟩) ∧
    (resolveOne [1, 2, 3] ⟨3, .mallas 0 1⟩).isNumeric = true := by
  have h := (resolver_partial_failure
    [("R1", ⟨2, .malla 0⟩), ("Rbad", ⟨1, .mallas 0 5⟩), ("R2", ⟨3, .mallas 0 1⟩)]
    [1, 2, 3]).2 2 ("R2", ⟨3, .mallas 0 1⟩) (by rfl)
  exact ⟨h.1, h.2 (by unfold tagInRange; norm_num)⟩

/-- C7: the total power sums exactly the powers of the non-error entries;
inserting an error entry anywhere changes nothing, and the sum never
fails. -/
theorem potencia_total_skips_errors :
    (∀ resultados : List (String × ComponentResult),
      potencia_total resultados =
        ((resultados.filterMap fun nd => okPower nd.2)).sum) ∧
    (∀ l1 l2 : List (String × ComponentResult), ∀ name : String, ∀ R : ℚ,
      ∀ msg : String,
      potencia_total (l1 ++ (name, .err R msg) :: l2) = potencia_total (l1 ++ l2)) :=
  ⟨potencia_total_eq_filterMap, potencia_total_append_err⟩

/-- C8: a shared value of exactly 0 between a pair of meshes leaves the
whole build state untouched: all four affected matrix entries keep their
values, the registry gets no entry for it, and the step is no error (it
returns the state). -/
theorem shared_zero_no_contribution {n : ℕ} (shared : Fin n → Fin n → ℚ)
    (st : BuildState n) (p : Fin n × Fin n) (h : shared p.1 p.2 = 0) :
    sharedStep shared st p = st ∧
    (sharedStep shared st p).R p.1 p.1 = st.R p.1 p.1 ∧
    (sharedStep shared st p).R p.2 p.2 = st.R p.2 p.2 ∧
    (sharedStep shared st p).R p.1 p.2 = st.R p.1 p.2 ∧
    (sharedStep shared st p).R p.2 p.1 = st.R p.2 p.1 ∧
    (sharedStep shared st p).resistencias = st.resistencias := by
  have hneg : ¬(0 < shared p.1 p.2) := by rw [h]; exact lt_irrefl 0
  have hstep : sharedStep shared st p = st := by
    simp [sharedStep, hneg]
  exact ⟨hstep, by rw [hstep], by rw [hstep], by rw [hstep], by rw [hstep], by rw [hstep]⟩

/-- Witness for C8 at a concrete two-mesh state whose shared value is 0. -/
theorem shared_zero_no_contribution_witness :
    sharedStep (fun _ _ => 0)
      (⟨Matrix.of fun _ _ => 7, fun _ => 1, []⟩ : BuildState 2) (0, 1) =
      (⟨Matrix.of fun _ _ => 7, fun _ => 1, []⟩ : BuildState 2) :=
  (shared_zero_no_contribution (fun _ _ => 0)
    ⟨Matrix.of fun _ _ => 7, fun _ => 1, []⟩ (0, 1) rfl).1

lemma mset_apply {n : ℕ} (M : Matrix (Fin n) (Fin n) ℚ) (i j a b : Fin n) (x : ℚ) :
    mset M i j x a b = if a = i ∧ b = j then x else M a b := rfl

lemma exclStep_R {n : ℕ} (sources : Fin n → ℚ) (propias : Fin n → List ℚ)
    (st : BuildState n) (i a b : Fin n) :
    (exclStep sources propias st i).R a b =
      if a = i ∧ b = i then (propias i).sum else st.R a b := rfl

lemma foldl_exclStep_R {n : ℕ} (sources : Fin n → ℚ) (propias : Fin n → List ℚ)
    (l : List (Fin n)) (st : BuildState n) (a b : Fin n) :
    (l.foldl (exclStep sources propias) st).R a b =
      if a = b ∧ a ∈ l then (propias a).sum else st.R a b := by
  induction l generalizing st with
  | nil => simp
  | cons i t ih =>
    rw [List.foldl_cons, ih]
    by_cases hab : a = b
    · subst hab
      by_cases hat : a ∈ t
      · simp [hat]
      · by_cases hai : a = i
        · subst hai; simp [hat, exclStep_R]
        · simp [hat, hai, exclStep_R]
    · have h1 : ¬(a = b ∧ a ∈ t) := fun h => hab h.1
      have h2 : ¬(a = b ∧ a ∈ i :: t) := fun h => hab h.1
      have h3 : ¬(a = i ∧ b = i) := fun h => hab (h.1.trans h.2.symm)
      rw [if_neg h1, if_neg h2, exclStep_R, if_neg h3]

lemma sharedStep_neg {n : ℕ} (shared : Fin n → Fin n → ℚ) (st : BuildState n)
    (p : Fin n × Fin n) (hr : ¬ 0 < shared p.1 p.2) :
    sharedStep shared st p = st := by
  simp [sharedStep, hr]

lemma sharedStep_R_pos {n : ℕ} (shared : Fin n → Fin n → ℚ) (st : BuildState n)
    (p : Fin n × Fin n) (a b : Fin n) (hr : 0 < shared p.1 p.2) :
    (sharedStep shared st p).R a b =
      (if a = p.2 ∧ b = p.1 then -(shared p.1 p.2)
       else if a = p.1 ∧ b = p.2 then -(shared p.1 p.2)
       else if a = p.2 ∧ b = p.2 then
         (if p.2 = p.1 ∧ p.2 = p.1 then st.R p.1 p.1 + shared p.1 p.2
          else st.R p.2 p.2) + shared p.1 p.2
       else if a = p.1 ∧ b = p.1 then st.R p.1 p.1 + shared p.1 p.2
       else st.R a b) := by
  simp only [sharedStep]
  rw [if_pos hr]
  rfl

lemma sharedStep_R_diag {n : ℕ} (shared : Fin n → Fin n → ℚ) (st : BuildState n)
    (p : Fin n × Fin n) (hij : p.1 ≠ p.2) (a : Fin n) :
    (sharedStep shared st p).R a a = st.R a a +
      (if (p.1 = a ∨ p.2 = a) ∧ 0 < shared p.1 p.2 then shared p.1 p.2 else 0) := by
  by_cases hr : 0 < shared p.1 p.2
  · rw [sharedStep_R_pos shared st p a a hr]
    have h1 : ¬(a = p.2 ∧ a = p.1) := fun h => hij (h.2.symm.trans h.1)
    have h2 : ¬(a = p.1 ∧ a = p.2) := fun h => hij (h.1.symm.trans h.2)
    have h3 : ¬(p.2 = p.1 ∧ p.2 = p.1) := fun h => hij h.1.symm
    rw [if_neg h1, if_neg h2, if_neg h3]
    by_cases ha2 : a = p.2
    · rw [if_pos ⟨ha2, ha2⟩, if_pos ⟨Or.inr ha2.symm, hr⟩, ha2]
    · rw [if_neg (fun h => ha2 h.1)]
      by_cases ha1 : a = p.1
      · rw [if_pos ⟨ha1, ha1⟩, if_pos ⟨Or.inl ha1.symm, hr⟩, ha1]
      · have h4 : ¬((p.1 = a ∨ p.2 = a) ∧ 0 < shared p.1 p.2) :=
          fun h => h.1.elim (fun e => ha1 e.symm) (fun e => ha2 e.symm)
        rw [if_neg (fun h => ha1 h.1), if_neg h4, add_zero]
  · rw [sharedStep_neg shared st p hr,
      if_neg (fun h : _ ∧ _ => hr h.2), add_zero]

lemma sharedStep_R_off {n : ℕ} (shared : Fin n → Fin n → ℚ) (st : BuildState n)
    (p : Fin n × Fin n) (hij : p.1 ≠ p.2) (a b : Fin n) (hab : a ≠ b) :
    (sharedStep shared st p).R a b =
      if ((a = p.1 ∧ b = p.2) ∨ (a = p.2 ∧ b = p.1)) ∧ 0 < shared p.1 p.2
      then -(shared p.1 p.2) else st.R a b := by
  by_cases hr : 0 < shared p.1 p.2
  · rw [sharedStep_R_pos shared st p a b hr]
    have h3 : ¬(a = p.2 ∧ b = p.2) := fun h => hab (h.1.trans h.2.symm)
    have h4 : ¬(a = p.1 ∧ b = p.1) := fun h => hab (h.1.trans h.2.symm)
    rw [if_neg h3, if_neg h4]
    by_cases hc1 : a = p.2 ∧ b = p.1
    · rw [if_pos hc1, if_pos ⟨Or.inr hc1, hr⟩]
    · rw [if_neg hc1]
      by_cases hc2 : a = p.1 ∧ b = p.2
      · rw [if_pos hc2, if_pos ⟨Or.inl hc2, hr⟩]
      · rw [if_neg hc2, if_neg (fun h => h.1.elim hc2 hc1)]
  · rw [sharedStep_neg shared st p hr, if_neg (fun h : _ ∧ _ => hr h.2)]

lemma foldl_sharedStep_R_diag {n : ℕ} (shared : Fin n → Fin n → ℚ)
    (L : List (Fin n × Fin n)) (st : BuildState n)
    (hL : ∀ p ∈ L, p.1 ≠ p.2) (a : Fin n) :
    (L.foldl (sharedStep shared) st).R a a = st.R a a +
      (L.map fun p =>
        if (p.1 = a ∨ p.2 = a) ∧ 0 < shared p.1 p.2 then shared p.1 p.2 else 0).sum := by
  induction L generalizing st with
  | nil => simp
  | cons p t ih =>
    have hp : p.1 ≠ p.2 := hL p (List.mem_cons_self p t)
    have ht : ∀ q ∈ t, q.1 ≠ q.2 := fun q hq => hL q (List.mem_cons_of_mem p hq)
    rw [List.foldl_cons, ih (sharedStep shared st p) ht,
      sharedStep_R_diag shared st p hp a, List.map_cons, List.sum_cons, add_assoc]


lemma foldl_sharedStep_R_off {n : ℕ} (shared : Fin n → Fin n → ℚ)
    (L : List (Fin n × Fin n)) (st : BuildState n)
    (hL : ∀ p ∈ L, p.1 < p.2) (hnd : L.Nodup) (a b : Fin n) (hab : a ≠ b) :
    (L.foldl (sharedStep shared) st).R a b =
      if (a, b) ∈ L ∧ 0 < shared a b then -(shared a b)
      else if (b, a) ∈ L ∧ 0 < shared b a then -(shared b a)
      else st.R a b := by
  induction L generalizing st with
  | nil => simp
  | cons p t ih =>
    have hp : p.1 < p.2 := hL p (List.mem_cons_self p t)
    have hpne : p.1 ≠ p.2 := Fin.ne_of_lt hp
    have ht : ∀ q ∈ t, q.1 < q.2 := fun q hq => hL q (List.mem_cons_of_mem p hq)
    have htnd : t.Nodup := hnd.of_cons
    have hpt : p ∉ t := (List.nodup_cons.mp hnd).1
    rw [List.foldl_cons, ih (sharedStep shared st p) ht htnd,
      sharedStep_R_off shared st p hpne a b hab]
    by_cases hc1 : a = p.1 ∧ b = p.2
    · -- the processed pair is exactly (a, b)
      have hpab : p = (a, b) := by
        obtain ⟨i, j⟩ := p
        simp only [Prod.mk.injEq]
        exact ⟨hc1.1.symm, hc1.2.symm⟩
      subst hpab
      have hp2 : a < b := hp
      have hba_t : (b, a) ∉ t := fun hmem => absurd (ht (b, a) hmem) (asymm hp2)
      have h1 : ¬((a, b) ∈ t ∧ 0 < shared a b) := fun h => hpt h.1
      have h2 : ¬((b, a) ∈ t ∧ 0 < shared b a) := fun h => hba_t h.1
      rw [if_neg h1, if_neg h2]
      have hmem : (a, b) ∈ (a, b) :: t := List.mem_cons_self _ t
      by_cases hs : 0 < shared a b
      · rw [if_pos ⟨Or.inl ⟨rfl, rfl⟩, hs⟩, if_pos ⟨hmem, hs⟩]
      · have hno2 : ¬((b, a) ∈ (a, b) :: t ∧ 0 < shared b a) := by
          rintro ⟨hmem2, _⟩
          rcases List.mem_cons.mp hmem2 with heq | hmem3
          · exact hab (congrArg Prod.fst heq).symm
          · exact hba_t hmem3
        rw [if_neg (fun h : _ ∧ _ => hs h.2),
          if_neg (fun h : _ ∧ _ => hs h.2), if_neg hno2]
    · by_cases hc2 : a = p.2 ∧ b = p.1
      · -- the processed pair is exactly (b, a)
        have hpab : p = (b, a) := by
          obtain ⟨i, j⟩ := p
          simp only [Prod.mk.injEq]
          exact ⟨hc2.2.symm, hc2.1.symm⟩
        subst hpab
        have hp2 : b < a := hp
        have hab_t : (a, b) ∉ t := fun hmem => absurd (ht (a, b) hmem) (asymm hp2)
        have h1 : ¬((a, b) ∈ t ∧ 0 < shared a b) := fun h => hab_t h.1
        have h2 : ¬((b, a) ∈ t ∧ 0 < shared b a) := fun h => hpt h.1
        rw [if_neg h1, if_neg h2]
        have hmem : (b, a) ∈ (b, a) :: t := List.mem_cons_self _ t
        have hno1 : ¬((a, b) ∈ (b, a) :: t ∧ 0 < shared a b) := by
          rintro ⟨hmem2, _⟩
          rcases List.mem_cons.mp hmem2 with heq | hmem3
          · exact hab (congrArg Prod.fst heq)
          · exact hab_t hmem3
        by_cases hs : 0 < shared b a
        · rw [if_pos ⟨Or.inr ⟨rfl, rfl⟩, hs⟩, if_neg hno1, if_pos ⟨hmem, hs⟩]
        · have hno2 : ¬((b, a) ∈ (b, a) :: t ∧ 0 < shared b a) := fun h => hs h.2
          rw [if_neg (fun h : _ ∧ _ => hs h.2), if_neg hno1, if_neg hno2]
      · -- the processed pair touches neither orientation of (a, b)
        have hstep : ¬(((a = p.1 ∧ b = p.2) ∨ (a = p.2 ∧ b = p.1)) ∧
            0 < shared p.1 p.2) := fun h => h.1.elim hc1 hc2
        rw [if_neg hstep]
        have hne1 : ¬((a, b) = p) := fun h =>
          hc1 ⟨congrArg Prod.fst h, congrArg Prod.snd h⟩
        have hne2 : ¬((b, a) = p) := fun h =>
          hc2 ⟨congrArg Prod.snd h, congrArg Prod.fst h⟩
        have hm1 : ((a, b) ∈ p :: t) ↔ ((a, b) ∈ t) := by
          rw [List.mem_cons]
          exact or_iff_right hne1
        have hm2 : ((b, a) ∈ p :: t) ↔ ((b, a) ∈ t) := by
          rw [List.mem_cons]
          exact or_iff_right hne2
        simp only [hm1, hm2]

lemma mem_pairList {n : ℕ} (p : Fin n × Fin n) : p ∈ pairList n ↔ p.1 < p.2 := by
  obtain ⟨i, j⟩ := p
  simp only [pairList, List.mem_flatMap, List.mem_map, List.mem_filter,
    List.mem_finRange, decide_eq_true_eq, Prod.mk.injEq, true_and]
  constructor
  · rintro ⟨i', j', ⟨hlt, rfl, rfl⟩⟩
    exact hlt
  · intro h
    exact ⟨i, j, h, rfl, rfl⟩

lemma pairList_nodup (n : ℕ) : (pairList n).Nodup := by
  rw [pairList, List.nodup_flatMap]
  constructor
  · intro i _
    exact List.Nodup.map (Prod.mk.inj_left i) (List.Nodup.filter _ (List.nodup_finRange n))
  · refine List.Pairwise.imp ?_ (List.nodup_finRange n)
    intro i i' hne q hq1 hq2
    simp only [List.mem_map, List.mem_filter] at hq1 hq2
    obtain ⟨j1, _, rfl⟩ := hq1
    obtain ⟨j2, _, heq⟩ := hq2
    exact hne (congrArg Prod.fst heq).symm

lemma sum_map_flatMap {α β : Type} (l : List α) (f : α → List β) (g : β → ℚ) :
    ((l.flatMap f).map g).sum = (l.map fun x => ((f x).map g).sum).sum := by
  induction l with
  | nil => rfl
  | cons x t ih => simp [List.flatMap_cons, ih]

lemma sum_map_filter {α : Type} (l : List α) (q : α → Bool) (g : α → ℚ) :
    ((l.filter q).map g).sum = (l.map fun x => if q x = true then g x else 0).sum := by
  induction l with
  | nil => rfl
  | cons x t ih => by_cases h : q x = true <;> simp [List.filter_cons, h, ih]

lemma list_sum_finRange {n : ℕ} (g : Fin n → ℚ) :
    ((List.finRange n).map g).sum = ∑ i : Fin n, g i :=
  (Fin.sum_univ_def g).symm

lemma pairList_diag_sum {n : ℕ} (shared : Fin n → Fin n → ℚ) (a : Fin n) :
    ((pairList n).map fun p =>
        if (p.1 = a ∨ p.2 = a) ∧ 0 < shared p.1 p.2 then shared p.1 p.2 else 0).sum =
      ∑ j ∈ Finset.univ.erase a, posShare (sval shared a j) := by
  have hinner : ∀ i : Fin n,
      (((((List.finRange n).filter fun j => decide (i < j)).map fun j =>
          ((i, j) : Fin n × Fin n)).map
        (fun p : Fin n × Fin n =>
          if (p.1 = a ∨ p.2 = a) ∧ 0 < shared p.1 p.2 then shared p.1 p.2 else 0)).sum) =
      ∑ j : Fin n,
        (if i < j then
          (if (i = a ∨ j = a) ∧ 0 < shared i j then shared i j else 0) else 0) := by
    intro i
    rw [List.map_map, sum_map_filter, list_sum_finRange]
    refine Finset.sum_congr rfl fun j _ => ?_
    simp only [Function.comp_apply, decide_eq_true_eq]
  have hA : ((pairList n).map fun p =>
        if (p.1 = a ∨ p.2 = a) ∧ 0 < shared p.1 p.2 then shared p.1 p.2 else 0).sum =
      ∑ i : Fin n, ∑ j : Fin n,
        (if i < j then
          (if (i = a ∨ j = a) ∧ 0 < shared i j then shared i j else 0) else 0) := by
    rw [pairList, sum_map_flatMap]
    exact (congrArg (fun F => ((List.finRange n).map F).sum) (funext hinner)).trans
      (list_sum_finRange _)
  rw [hA]
  have hB : ∀ i : Fin n, i ≠ a →
      (∑ j : Fin n, (if i < j then
        (if (i = a ∨ j = a) ∧ 0 < shared i j then shared i j else 0) else 0)) =
      (if i < a then (if 0 < shared i a then shared i a else 0) else 0) := by
    intro i hi
    have h1 : ∀ j : Fin n, j ≠ a →
        (if i < j then
          (if (i = a ∨ j = a) ∧ 0 < shared i j then shared i j else 0) else 0) = 0 := by
      intro j hj
      have hno : ¬((i = a ∨ j = a) ∧ 0 < shared i j) := fun hh => hh.1.elim hi hj
      rw [if_neg hno, ite_self]
    have h2 := Finset.sum_eq_single a (fun j _ hj => h1 j hj)
      (fun h => absurd (Finset.mem_univ a) h)
    rw [h2]
    simp only [eq_self_iff_true, or_true, true_and]
  rw [← Finset.add_sum_erase Finset.univ _ (Finset.mem_univ a)]
  have hSa : (∑ j : Fin n, (if a < j then
      (if (a = a ∨ j = a) ∧ 0 < shared a j then shared a j else 0) else 0)) =
      ∑ j ∈ Finset.univ.erase a, (if a < j then
        (if 0 < shared a j then shared a j else 0) else 0) := by
    have ha0 : (if a < a then (if 0 < shared a a then shared a a else 0) else 0) = 0 := by
      simp [lt_irrefl]
    calc (∑ j : Fin n, (if a < j then
          (if (a = a ∨ j = a) ∧ 0 < shared a j then shared a j else 0) else 0))
        = ∑ j : Fin n, (if a < j then (if 0 < shared a j then shared a j else 0) else 0) :=
          Finset.sum_congr rfl fun j _ => by
            simp only [eq_self_iff_true, true_or, true_and]
      _ = ∑ j ∈ Finset.univ.erase a,
            (if a < j then (if 0 < shared a j then shared a j else 0) else 0) := by
          have hers : (∑ j ∈ Finset.univ.erase a,
              (if a < j then (if 0 < shared a j then shared a j else 0) else 0)) =
              ∑ j : Fin n, (if a < j then (if 0 < shared a j then shared a j else 0) else 0) :=
            Finset.sum_erase Finset.univ ha0
          exact hers.symm
  rw [hSa, Finset.sum_congr rfl fun i hi => hB i (Finset.ne_of_mem_erase hi),
    ← Finset.sum_add_distrib]
  refine Finset.sum_congr rfl fun j hj => ?_
  rcases (Finset.ne_of_mem_erase hj).lt_or_lt with h | h
  · simp [sval, posShare, h, lt_asymm h]
  · simp [sval, posShare, h, lt_asymm h]

lemma build_phase1_R {n : ℕ} (sources : Fin n → ℚ) (propias : Fin n → List ℚ)
    (a b : Fin n) :
    (((List.finRange n).foldl (exclStep sources propias)
        ⟨Matrix.of fun _ _ => 0, fun _ => 0, []⟩).R a b) =
      if a = b then (propias a).sum else 0 := by
  rw [foldl_exclStep_R]
  by_cases h : a = b
  · simp [h, List.mem_finRange]
  · simp [h]

lemma build_R_entries (n : ℕ) (sources : Fin n → ℚ) (propias : Fin n → List ℚ)
    (shared : Fin n → Fin n → ℚ) (a b : Fin n) :
    ((build n sources propias shared).R a a =
      (propias a).sum + ∑ j ∈ Finset.univ.erase a, posShare (sval shared a j)) ∧
    (a ≠ b → (build n sources propias shared).R a b = -(posShare (sval shared a b))) := by
  have hlt : ∀ p ∈ pairList n, p.1 < p.2 := fun p hp => (mem_pairList p).mp hp
  have hne : ∀ p ∈ pairList n, p.1 ≠ p.2 := fun p hp => Fin.ne_of_lt (hlt p hp)
  constructor
  · show ((pairList n).foldl (sharedStep shared) _).R a a = _
    rw [foldl_sharedStep_R_diag shared (pairList n) _ hne a,
      build_phase1_R sources propias a a, if_pos rfl, pairList_diag_sum shared a]
  · intro hab
    show ((pairList n).foldl (sharedStep shared) _).R a b = _
    rw [foldl_sharedStep_R_off shared (pairList n) _ hlt (pairList_nodup n) a b hab,
      build_phase1_R sources propias a b, if_neg hab]
    rcases hab.lt_or_lt with h | h
    · by_cases hs : 0 < shared a b
      · rw [if_pos ⟨(mem_pairList (a, b)).mpr h, hs⟩, sval, if_pos h, posShare, if_pos hs]
      · have h1 : ¬((a, b) ∈ pairList n ∧ 0 < shared a b) := fun hh => hs hh.2
        have h2 : ¬((b, a) ∈ pairList n ∧ 0 < shared b a) := fun hh =>
          absurd ((mem_pairList (b, a)).mp hh.1) (lt_asymm h)
        rw [if_neg h1, if_neg h2, sval, if_pos h, posShare, if_neg hs, neg_zero]
    · by_cases hs : 0 < shared b a
      · have h1 : ¬((a, b) ∈ pairList n ∧ 0 < shared a b) := fun hh =>
          absurd ((mem_pairList (a, b)).mp hh.1) (lt_asymm h)
        rw [if_neg h1, if_pos ⟨(mem_pairList (b, a)).mpr h, hs⟩, sval,
          if_neg (lt_asymm h), posShare, if_pos hs]
      · have h1 : ¬((a, b) ∈ pairList n ∧ 0 < shared a b) := fun hh =>
          absurd ((mem_pairList (a, b)).mp hh.1) (lt_asymm h)
        have h2 : ¬((b, a) ∈ pairList n ∧ 0 < shared b a) := fun hh => hs hh.2
        rw [if_neg h1, if_neg h2, sval, if_neg (lt_asymm h), posShare, if_neg hs, neg_zero]

/-- C1: entries of the built resistance matrix.  A diagonal entry is the
sum of the exclusive-resistor values of that mesh plus the positive shared
values touching it; an off-diagonal entry is minus the positive part of
the shared value between the two meshes (the code writes each pair once,
so the accumulated sum of the spec is that single contribution). -/
theorem build_matrix_entries (n : ℕ) (sources : Fin n → ℚ) (propias : Fin n → List ℚ)
    (shared : Fin n → Fin n → ℚ) (a b : Fin n) :
    ((build n sources propias shared).R a a =
      (propias a).sum + ∑ j ∈ Finset.univ.erase a, posShare (sval shared a j)) ∧
    (a ≠ b → (build n sources propias shared).R a b = -(posShare (sval shared a b))) :=
  build_R_entries n sources propias shared a b

/-- Witness for C1 on a concrete two-mesh build. -/
theorem build_matrix_entries_witness :
    (build 2 (fun _ => 10) (fun i => if i = 0 then [2] else [3]) (fun _ _ => 1)).R 0 1 =
      -(posShare (@sval 2 (fun _ _ => (1 : ℚ)) 0 1)) ∧
    (build 2 (fun _ => 10) (fun i => if i = 0 then [2] else [3]) (fun _ _ => 1)).R 0 0 =
      ([2] : List ℚ).sum + ∑ j ∈ Finset.univ.erase 0,
        posShare (@sval 2 (fun _ _ => (1 : ℚ)) 0 j) := by
  have h := build_matrix_entries 2 (fun _ => 10)
    (fun i => if i = 0 then [2] else [3]) (fun _ _ => 1) 0 1
  exact ⟨h.2 (by decide), h.1⟩

lemma exclStep_symm {n : ℕ} (sources : Fin n → ℚ) (propias : Fin n → List ℚ)
    (st : BuildState n) (hsym : ∀ a b, st.R a b = st.R b a) (i a b : Fin n) :
    (exclStep sources propias st i).R a b = (exclStep sources propias st i).R b a := by
  rw [exclStep_R, exclStep_R]
  by_cases h : a = i ∧ b = i
  · rw [if_pos h, if_pos ⟨h.2, h.1⟩]
  · rw [if_neg h, if_neg (fun hh => h ⟨hh.2, hh.1⟩), hsym a b]

lemma sharedStep_symm {n : ℕ} (shared : Fin n → Fin n → ℚ)
    (st : BuildState n) (hsym : ∀ a b, st.R a b = st.R b a) (p : Fin n × Fin n)
    (a b : Fin n) :
    (sharedStep shared st p).R a b = (sharedStep shared st p).R b a := by
  by_cases hr : 0 < shared p.1 p.2
  · rw [sharedStep_R_pos shared st p a b hr, sharedStep_R_pos shared st p b a hr]
    split_ifs <;> first | rfl | (exact hsym a b) | tauto
  · rw [sharedStep_neg shared st p hr]
    exact hsym a b

lemma foldl_exclStep_symm {n : ℕ} (sources : Fin n → ℚ) (propias : Fin n → List ℚ)
    (l : List (Fin n)) (st : BuildState n) (hsym : ∀ a b, st.R a b = st.R b a) :
    ∀ a b, (l.foldl (exclStep sources propias) st).R a b =
      (l.foldl (exclStep sources propias) st).R b a := by
  induction l generalizing st with
  | nil => exact hsym
  | cons i t ih => exact ih _ (exclStep_symm sources propias st hsym i)

lemma foldl_sharedStep_symm {n : ℕ} (shared : Fin n → Fin n → ℚ)
    (L : List (Fin n × Fin n)) (st : BuildState n)
    (hsym : ∀ a b, st.R a b = st.R b a) :
    ∀ a b, (L.foldl (sharedStep shared) st).R a b =
      (L.foldl (sharedStep shared) st).R b a := by
  induction L generalizing st with
  | nil => exact hsym
  | cons p t ih => exact ih _ (sharedStep_symm shared st hsym p)

/-- C2: the built resistance matrix is symmetric, and symmetry is an
invariant of every single contribution step (exclusive or shared) of the
builder. -/
theorem built_matrix_symmetric (n : ℕ) (sources : Fin n → ℚ)
    (propias : Fin n → List ℚ) (shared : Fin n → Fin n → ℚ) :
    (∀ a b : Fin n, (build n sources propias shared).R a b =
      (build n sources propias shared).R b a) ∧
    (∀ st : BuildState n, (∀ a b, st.R a b = st.R b a) →
      (∀ i a b, (exclStep sources propias st i).R a b =
        (exclStep sources propias st i).R b a) ∧
      (∀ p a b, (sharedStep shared st p).R a b =
        (sharedStep shared st p).R b a)) := by
  constructor
  · exact foldl_sharedStep_symm shared (pairList n) _
      (foldl_exclStep_symm sources propias (List.finRange n) _ (fun _ _ => rfl))
  · exact fun st hsym =>
      ⟨exclStep_symm sources propias st hsym,
       sharedStep_symm shared st hsym⟩

/-- Witness for C2: one shared contribution applied to a concrete
symmetric state keeps a pair of mirror entries equal. -/
theorem built_matrix_symmetric_witness :
    (sharedStep (fun _ _ => 1)
      (⟨Matrix.of fun _ _ => 2, fun _ => 0, []⟩ : BuildState 2) (0, 1)).R 0 1 =
    (sharedStep (fun _ _ => 1)
      (⟨Matrix.of fun _ _ => 2, fun _ => 0, []⟩ : BuildState 2) (0, 1)).R 1 0 :=
  ((built_matrix_symmetric 2 (fun _ => 0) (fun _ => []) (fun _ _ => 1)).2
    ⟨Matrix.of fun _ _ => 2, fun _ => 0, []⟩ (fun _ _ => rfl)).2 (0, 1) 0 1

/-- C4: the solve fails exactly on a singular matrix (determinant 0, the
exact-arithmetic reading of numpy raising `LinAlgError`); a successful
solve returns a vector actually solving `R * I = V`; and the one-mesh
zero-resistance build always fails. -/
theorem solveSystem_spec (n : ℕ) (M : Matrix (Fin n) (Fin n) ℚ) (v : Fin n → ℚ) :
    ((∃ e, solveSystem M v = .error e) ↔ ¬ IsUnit M) ∧
    (∀ x, solveSystem M v = .ok x → M.mulVec x = v) ∧
    (∀ sources : Fin 1 → ℚ, ∀ shared : Fin 1 → Fin 1 → ℚ,
      ∃ e, solveSystem ((build 1 sources (fun _ => []) shared).R)
        ((build 1 sources (fun _ => []) shared).V) = .error e) := by
  have hdet_unit : IsUnit M ↔ M.det ≠ 0 := by
    rw [Matrix.isUnit_iff_isUnit_det, isUnit_iff_ne_zero]
  refine ⟨⟨?_, ?_⟩, ?_, ?_⟩
  · rintro ⟨e, he⟩ hu
    have hd : M.det ≠ 0 := hdet_unit.mp hu
    simp only [solveSystem, if_neg hd] at he
    exact Except.noConfusion he
  · intro hu
    have hd : M.det = 0 := by
      by_contra hd
      exact hu (hdet_unit.mpr hd)
    exact ⟨"Sistema Indeterminado: la matriz R es singular",
      by simp only [solveSystem, if_pos hd]⟩
  · intro x hx
    by_cases hd : M.det = 0
    · simp only [solveSystem, if_pos hd] at hx
      exact Except.noConfusion hx
    · simp only [solveSystem, if_neg hd] at hx
      have hx2 : x = fun i => Matrix.cramer M v i / M.det := (Except.ok.inj hx).symm
      subst hx2
      have heq : (fun i => Matrix.cramer M v i / M.det) =
          M.det⁻¹ • (fun i => Matrix.cramer M v i) := by
        funext i
        rw [Pi.smul_apply, smul_eq_mul, div_eq_mul_inv, mul_comm]
      rw [heq, Matrix.mulVec_smul, Matrix.mulVec_cramer M v, smul_smul,
        inv_mul_cancel₀ hd, one_smul]
  · intro sources shared
    have hR : (build 1 sources (fun _ => []) shared).R 0 0 = 0 := by
      show (((List.finRange 1).foldl (exclStep sources fun _ => [])
        ⟨Matrix.of fun _ _ => 0, fun _ => 0, []⟩).R 0 0) = 0
      rw [build_phase1_R]
      simp
    have hd : (build 1 sources (fun _ => []) shared).R.det = 0 := by
      rw [Matrix.det_fin_one, hR]
    exact ⟨"Sistema Indeterminado: la matriz R es singular",
      by simp only [solveSystem, if_pos hd]⟩

/-- Witness for C4: a 1 by 1 system with resistance 2 and source 10 is
solved, and the returned current 5 satisfies the system. -/
theorem solveSystem_spec_witness :
    (Matrix.of fun _ _ => (2 : ℚ) : Matrix (Fin 1) (Fin 1) ℚ).mulVec
      (fun _ => 5) = (fun _ => 10) := by
  have hdet : (Matrix.of fun _ _ => (2 : ℚ) : Matrix (Fin 1) (Fin 1) ℚ).det = 2 := by
    rw [Matrix.det_fin_one]
    rfl
  have hsolve : solveSystem (Matrix.of fun _ _ => (2 : ℚ) : Matrix (Fin 1) (Fin 1) ℚ)
      (fun _ => 10) = .ok (fun _ => 5) := by
    simp only [solveSystem, hdet]
    rw [if_neg (by norm_num)]
    refine congrArg Except.ok (funext fun i => ?_)
    rw [Matrix.cramer_apply, Matrix.det_fin_one, Matrix.updateColumn_apply]
    have hi : (0 : Fin 1) = i := Subsingleton.elim _ _
    rw [if_pos hi]
    norm_num
  exact (solveSystem_spec 1 (Matrix.of fun _ _ => 2) (fun _ => 10)).2.1
    (fun _ => 5) hsolve

lemma sharedStep_V {n : ℕ} (shared : Fin n → Fin n → ℚ) (st : BuildState n)
    (p : Fin n × Fin n) : (sharedStep shared st p).V = st.V := by
  by_cases hr : 0 < shared p.1 p.2 <;> simp [sharedStep, hr]

lemma foldl_sharedStep_V {n : ℕ} (shared : Fin n → Fin n → ℚ)
    (L : List (Fin n × Fin n)) (st : BuildState n) :
    (L.foldl (sharedStep shared) st).V = st.V := by
  induction L generalizing st with
  | nil => rfl
  | cons p t ih => rw [List.foldl_cons, ih, sharedStep_V]

lemma foldl_exclStep_V {n : ℕ} (sources : Fin n → ℚ) (propias : Fin n → List ℚ)
    (l : List (Fin n)) (st : BuildState n) (a : Fin n) :
    (l.foldl (exclStep sources propias) st).V a =
      if a ∈ l then sources a else st.V a := by
  induction l generalizing st with
  | nil => simp
  | cons i t ih =>
    rw [List.foldl_cons, ih]
    by_cases hat : a ∈ t
    · simp [hat]
    · by_cases hai : a = i
      · subst hai
        simp [hat, exclStep, Function.update_same]
      · simp [hat, hai, exclStep, Function.update_noteq hai]

lemma build_V {n : ℕ} (sources : Fin n → ℚ) (propias : Fin n → List ℚ)
    (shared : Fin n → Fin n → ℚ) (a : Fin n) :
    (build n sources propias shared).V a = sources a := by
  show ((pairList n).foldl (sharedStep shared) _).V a = sources a
  rw [foldl_sharedStep_V, foldl_exclStep_V]
  simp [List.mem_finRange]

/-- Spec scenario 2: two meshes with sources 10V and 0V, exclusive
resistors 2 and 3 ohm, one shared resistor of 1 ohm. -/
def scenario2 : BuildState 2 :=
  build 2 ![10, 0] (fun i => if i = 0 then [2] else [3]) (fun _ _ => 1)

lemma scenario2_R00 : scenario2.R 0 0 = 3 := by
  have h : scenario2.R 0 0 =
      ((fun i : Fin 2 => if i = 0 then [(2 : ℚ)] else [3]) 0).sum +
        ∑ j ∈ Finset.univ.erase 0, posShare (@sval 2 (fun _ _ => 1) 0 j) :=
    (build_R_entries 2 ![10, 0] (fun i => if i = 0 then [2] else [3])
      (fun _ _ => 1) 0 0).1
  rw [h, show (Finset.univ.erase (0 : Fin 2)) = {1} from by decide,
    Finset.sum_singleton]
  norm_num [sval, posShare]

lemma scenario2_R11 : scenario2.R 1 1 = 4 := by
  have h : scenario2.R 1 1 =
      ((fun i : Fin 2 => if i = 0 then [(2 : ℚ)] else [3]) 1).sum +
        ∑ j ∈ Finset.univ.erase 1, posShare (@sval 2 (fun _ _ => 1) 1 j) :=
    (build_R_entries 2 ![10, 0] (fun i => if i = 0 then [2] else [3])
      (fun _ _ => 1) 1 1).1
  rw [h, show (Finset.univ.erase (1 : Fin 2)) = {0} from by decide,
    Finset.sum_singleton]
  norm_num [sval, posShare]

lemma scenario2_R01 : scenario2.R 0 1 = -1 := by
  have h : scenario2.R 0 1 = -(posShare (@sval 2 (fun _ _ => 1) 0 1)) :=
    (build_R_entries 2 ![10, 0] (fun i => if i = 0 then [2] else [3])
      (fun _ _ => 1) 0 1).2 (by decide)
  rw [h]
  norm_num [sval, posShare]

lemma scenario2_R10 : scenario2.R 1 0 = -1 := by
  have h : scenario2.R 1 0 = -(posShare (@sval 2 (fun _ _ => 1) 1 0)) :=
    (build_R_entries 2 ![10, 0] (fun i => if i = 0 then [2] else [3])
      (fun _ _ => 1) 1 0).2 (by decide)
  rw [h]
  norm_num [sval, posShare]

lemma scenario2_V0 : scenario2.V 0 = 10 :=
  (build_V ![10, 0] (fun i => if i = 0 then [2] else [3]) (fun _ _ => 1) 0).trans rfl

lemma scenario2_V1 : scenario2.V 1 = 0 :=
  (build_V ![10, 0] (fun i => if i = 0 then [2] else [3]) (fun _ _ => 1) 1).trans rfl

lemma scenario2_reg : scenario2.resistencias =
    [("R1_p1", ⟨2, .malla 0⟩), ("R2_p1", ⟨3, .malla 1⟩),
     ("R_c1-2", ⟨1, .mallas 0 1⟩)] := rfl

lemma scenario2_det : scenario2.R.det = 11 := by
  rw [Matrix.det_fin_two, scenario2_R00, scenario2_R01, scenario2_R10, scenario2_R11]
  norm_num

lemma scenario2_cramer0 : Matrix.cramer scenario2.R scenario2.V 0 = 40 := by
  have e00 : (scenario2.R.updateColumn 0 scenario2.V) 0 0 = scenario2.V 0 := by
    rw [Matrix.updateColumn_apply, if_pos rfl]
  have e11 : (scenario2.R.updateColumn 0 scenario2.V) 1 1 = scenario2.R 1 1 := by
    rw [Matrix.updateColumn_apply, if_neg (by decide)]
  have e01 : (scenario2.R.updateColumn 0 scenario2.V) 0 1 = scenario2.R 0 1 := by
    rw [Matrix.updateColumn_apply, if_neg (by decide)]
  have e10 : (scenario2.R.updateColumn 0 scenario2.V) 1 0 = scenario2.V 1 := by
    rw [Matrix.updateColumn_apply, if_pos rfl]
  rw [Matrix.cramer_apply, Matrix.det_fin_two, e00, e11, e01, e10,
    scenario2_V0, scenario2_V1, scenario2_R11, scenario2_R01]
  norm_num

lemma scenario2_cramer1 : Matrix.cramer scenario2.R scenario2.V 1 = 10 := by
  have e00 : (scenario2.R.updateColumn 1 scenario2.V) 0 0 = scenario2.R 0 0 := by
    rw [Matrix.updateColumn_apply, if_neg (by decide)]
  have e11 : (scenario2.R.updateColumn 1 scenario2.V) 1 1 = scenario2.V 1 := by
    rw [Matrix.updateColumn_apply, if_pos rfl]
  have e01 : (scenario2.R.updateColumn 1 scenario2.V) 0 1 = scenario2.V 0 := by
    rw [Matrix.updateColumn_apply, if_pos rfl]
  have e10 : (scenario2.R.updateColumn 1 scenario2.V) 1 0 = scenario2.R 1 0 := by
    rw [Matrix.updateColumn_apply, if_neg (by decide)]
  rw [Matrix.cramer_apply, Matrix.det_fin_two, e00, e11, e01, e10,
    scenario2_V0, scenario2_V1, scenario2_R00, scenario2_R10]
  norm_num

lemma scenario2_solve : solveSystem scenario2.R scenario2.V =
    .ok fun i => Matrix.cramer scenario2.R scenario2.V i / 11 := by
  simp only [solveSystem, scenario2_det]
  rw [if_neg (by norm_num)]

lemma scenario2_resolver : calcular_potencia
    [("R1_p1", ⟨2, .malla 0⟩), ("R2_p1", ⟨3, .malla 1⟩), ("R_c1-2", ⟨1, .mallas 0 1⟩)]
    [40 / 11, 10 / 11] =
    [("R1_p1", .ok 2 (40 / 11) (3200 / 121)),
     ("R2_p1", .ok 3 (10 / 11) (300 / 121)),
     ("R_c1-2", .ok 1 (30 / 11) (900 / 121))] := by
  have g0 : pyGet [40 / 11, 10 / 11] 0 = some (40 / 11) := rfl
  have g1 : pyGet [40 / 11, 10 / 11] 1 = some (10 / 11) := rfl
  have a0 : |(40 : ℚ) / 11| = 40 / 11 := abs_of_pos (by norm_num)
  have a1 : |(10 : ℚ) / 11| = 10 / 11 := abs_of_pos (by norm_num)
  have a2 : |(40 : ℚ) / 11 - 10 / 11| = 30 / 11 := by
    rw [show (40 : ℚ) / 11 - 10 / 11 = 30 / 11 from by norm_num]
    exact abs_of_pos (by norm_num)
  simp only [calcular_potencia, List.map_cons, List.map_nil, resolveOne, g0, g1,
    a0, a1, a2]
  simp only [List.cons.injEq, Prod.mk.injEq, ComponentResult.ok.injEq, and_true]
  refine ⟨⟨trivial, ?_, ?_⟩, ⟨trivial, ?_, ?_⟩, trivial, ?_, ?_⟩ <;> norm_num

/-- C9: end-to-end check of spec scenario 2: the build produces
`[[3, -1], [-1, 4]]` and `[10, 0]`, the solve returns mesh currents
`40/11 ≈ 3.636` and `10/11 ≈ 0.909`, and the resolver reports shared
current `30/11 ≈ 2.727` and power `900/121 ≈ 7.438`. -/
theorem end_to_end_scenario2 :
    (scenario2.R 0 0 = 3 ∧ scenario2.R 0 1 = -1 ∧
     scenario2.R 1 0 = -1 ∧ scenario2.R 1 1 = 4) ∧
    (scenario2.V 0 = 10 ∧ scenario2.V 1 = 0) ∧
    ∃ I : Fin 2 → ℚ, solveSystem scenario2.R scenario2.V = .ok I ∧
      I 0 = 40 / 11 ∧ I 1 = 10 / 11 ∧
      |I 0 - 3.636| < 1 / 1000 ∧ |I 1 - 0.909| < 1 / 1000 ∧
      calcular_potencia scenario2.resistencias [I 0, I 1] =
        [("R1_p1", .ok 2 (40 / 11) (3200 / 121)),
         ("R2_p1", .ok 3 (10 / 11) (300 / 121)),
         ("R_c1-2", .ok 1 (30 / 11) (900 / 121))] ∧
      |(30 : ℚ) / 11 - 2.727| < 1 / 1000 ∧
      |(900 : ℚ) / 121 - 7.438| < 1 / 1000 := by
  refine ⟨⟨scenario2_R00, scenario2_R01, scenario2_R10, scenario2_R11⟩,
    ⟨scenario2_V0, scenario2_V1⟩,
    (fun i => Matrix.cramer scenario2.R scenario2.V i / 11), scenario2_solve, ?_⟩
  simp only []
  have hI0 : Matrix.cramer scenario2.R scenario2.V 0 / 11 = 40 / 11 := by
    rw [scenario2_cramer0]
  have hI1 : Matrix.cramer scenario2.R scenario2.V 1 / 11 = 10 / 11 := by
    rw [scenario2_cramer1]
  refine ⟨hI0, hI1, ?_, ?_, ?_, ?_, ?_⟩
  · rw [hI0, abs_sub_lt_iff]
    constructor <;> norm_num
  · rw [hI1, abs_sub_lt_iff]
    constructor <;> norm_num
  · rw [hI0, hI1, scenario2_reg]
    exact scenario2_resolver
  · rw [abs_sub_lt_iff]
    constructor <;> norm_num
  · rw [abs_sub_lt_iff]
    constructor <;> norm_num
